import Mathlib

/-!
Verification development for a wiki-search chat bot's enrichment/ranking
pipeline.  The definitions below are a shallow embedding of the program's
source (src/config/languages.rs, src/utils/text.rs, src/models/article.rs,
src/services/wikipedia.rs, src/services/wikidata.rs):

* pure Rust functions become Lean functions over `String`/`List Char`;
* `f64` values are modelled as `ℚ` (the program only adds, divides by
  constants and compares scores, so rational arithmetic mirrors the source
  formulas exactly);
* `HashMap` values are modelled as association lists; iteration order of a
  `HashMap` is arbitrary in Rust, which the list order models;
* each network round trip is a call into a `WikipediaEnv` record of
  response functions supplied by the caller; an `Except WikiError` result
  models transport/decoding outcomes;
* the in-memory caches are modelled by their lookup functions; a cache
  *write* has no effect on the value returned by the function performing
  it, so writes are omitted;
* Rust's Unicode `to_lowercase`/`char::is_whitespace` are modelled by
  `Char.toLower`/`Char.isWhitespace`, which agree with them on all ASCII
  input (every language code in the program is ASCII).
-/

deriving instance DecidableEq for Except

namespace WikiBot

/-! ### Language model (src/config/languages.rs) -/

/-- The 35 supported languages, mirroring `enum SupportedLanguage`. -/
inductive SupportedLanguage where
  | Russian | Ukrainian | English | German | French | Spanish | Italian
  | Portuguese | Polish | Japanese | Chinese | Korean | Arabic | Hebrew
  | Turkish | Dutch | Swedish | Norwegian | Danish | Finnish | Czech
  | Bulgarian | Croatian | Serbian | Slovak | Slovenian | Hungarian
  | Romanian | Greek | Latvian | Lithuanian | Estonian | Catalan | Basque
  | Galician
deriving DecidableEq, Repr, Fintype

/-- `SupportedLanguage::code` — the two-letter wiki subdomain code. -/
def SupportedLanguage.code : SupportedLanguage → String
  | .Russian => "ru" | .Ukrainian => "uk" | .English => "en" | .German => "de"
  | .French => "fr" | .Spanish => "es" | .Italian => "it" | .Portuguese => "pt"
  | .Polish => "pl" | .Japanese => "ja" | .Chinese => "zh" | .Korean => "ko"
  | .Arabic => "ar" | .Hebrew => "he" | .Turkish => "tr" | .Dutch => "nl"
  | .Swedish => "sv" | .Norwegian => "no" | .Danish => "da" | .Finnish => "fi"
  | .Czech => "cs" | .Bulgarian => "bg" | .Croatian => "hr" | .Serbian => "sr"
  | .Slovak => "sk" | .Slovenian => "sl" | .Hungarian => "hu" | .Romanian => "ro"
  | .Greek => "el" | .Latvian => "lv" | .Lithuanian => "lt" | .Estonian => "et"
  | .Catalan => "ca" | .Basque => "eu" | .Galician => "gl"

/-- Model of Rust's `str::to_lowercase`, character-wise ASCII lowering
(`Char.toLower` agrees with the source on all ASCII text; the language
codes matched by `from_code` are all ASCII). -/
def rustToLowercase (s : String) : String :=
  String.mk (s.data.map Char.toLower)

/-- The code table of `SupportedLanguage::from_code`, one entry per match
arm, in source order. -/
def languageCodes : List (String × SupportedLanguage) :=
  [("ru", .Russian), ("uk", .Ukrainian), ("en", .English), ("de", .German),
   ("fr", .French), ("es", .Spanish), ("it", .Italian), ("pt", .Portuguese),
   ("pl", .Polish), ("ja", .Japanese), ("zh", .Chinese), ("ko", .Korean),
   ("ar", .Arabic), ("he", .Hebrew), ("tr", .Turkish), ("nl", .Dutch),
   ("sv", .Swedish), ("no", .Norwegian), ("da", .Danish), ("fi", .Finnish),
   ("cs", .Czech), ("bg", .Bulgarian), ("hr", .Croatian), ("sr", .Serbian),
   ("sk", .Slovak), ("sl", .Slovenian), ("hu", .Hungarian), ("ro", .Romanian),
   ("el", .Greek), ("lv", .Latvian), ("lt", .Lithuanian), ("et", .Estonian),
   ("ca", .Catalan), ("eu", .Basque), ("gl", .Galician)]

/-- `SupportedLanguage::from_code`: lowercase the input, then match it
against the code table (the source's 35-arm literal match). -/
def SupportedLanguage.from_code (code : String) : Option SupportedLanguage :=
  (languageCodes.find? (fun kv => kv.1 == rustToLowercase code)).map (fun kv => kv.2)

/-- `impl Default for SupportedLanguage` returns Russian. -/
def SupportedLanguage.default : SupportedLanguage := .Russian

/-! ### Byte lengths and trimming (Rust `str::len`, `str::trim`) -/

/-- Rust's `str::len` — the UTF-8 byte length of a character list. -/
def utf8Len (l : List Char) : Nat := (l.map Char.utf8Size).sum

/-- Model of Rust's `char::is_whitespace` (agrees on all ASCII input). -/
def isRustWhitespace (c : Char) : Bool := c.isWhitespace

/-- Rust's `str::trim` on a character list. -/
def rustTrim (l : List Char) : List Char :=
  ((l.dropWhile isRustWhitespace).reverse.dropWhile isRustWhitespace).reverse

/-! ### Query-language parsing (src/config/languages.rs,
`parse_query_with_language`) -/

/-- Split a character list at its first `':'`: returns the characters
before it and the characters after it (Rust's `query.find(str)` followed by
the two slices). -/
def splitAtFirstColon : List Char → Option (List Char × List Char)
  | [] => none
  | c :: rest =>
    if c = ':' then some ([], rest)
    else (splitAtFirstColon rest).map (fun p => (c :: p.1, p.2))

/-- `parse_query_with_language`: if the first colon sits at byte position
1–4 and the text before it is a known language code (case-insensitively),
return that language and the trimmed remainder; otherwise the default
language and the query unchanged. -/
def parse_query_with_language (query : String) : SupportedLanguage × String :=
  match splitAtFirstColon query.data with
  | some (pre, post) =>
    if 0 < utf8Len pre ∧ utf8Len pre < 5 then
      match SupportedLanguage.from_code (String.mk pre) with
      | some language => (language, String.mk (rustTrim post))
      | none => (SupportedLanguage.default, query)
    else (SupportedLanguage.default, query)
  | none => (SupportedLanguage.default, query)

/-! ### Text sanitizing (src/utils/text.rs) -/

/-- Scanner for the regex `<[^>]*>` replaced by a space: the flag records
whether we are inside a tag (an opening `<` is consumed only when a closing
`>` exists, exactly when the regex matches). -/
def stripTagsGo : Bool → List Char → List Char
  | _, [] => []
  | true, c :: cs => if c = '>' then stripTagsGo false cs else stripTagsGo true cs
  | false, c :: cs =>
    if c = '<' ∧ cs.any (fun d => d = '>') then ' ' :: stripTagsGo true cs
    else c :: stripTagsGo false cs

/-- `HTML_TAG_REGEX.replace_all(text, blank)`. -/
def stripTags (l : List Char) : List Char := stripTagsGo false l

/-- Is `pat` a prefix of `l`? -/
def listStartsWith : List Char → List Char → Bool
  | [], _ => true
  | _ :: _, [] => false
  | p :: ps, c :: cs => p == c && listStartsWith ps cs

/-- Engine of Rust `str::replace` (replace every leftmost, non-overlapping
occurrence of `pat` by `rep`): after emitting `rep` for a match the skip
counter swallows the rest of the matched occurrence one character at a
time, keeping the recursion structural. -/
def replaceSkipGo (pat rep : List Char) : Nat → List Char → List Char
  | _, [] => []
  | skip + 1, _ :: cs => replaceSkipGo pat rep skip cs
  | 0, c :: cs =>
    if pat ≠ [] ∧ listStartsWith pat (c :: cs) then
      rep ++ replaceSkipGo pat rep (pat.length - 1) cs
    else c :: replaceSkipGo pat rep 0 cs

/-- Rust `str::replace`. -/
def rustReplace (s pat rep : String) : String :=
  String.mk (replaceSkipGo pat.data rep.data 0 s.data)

/-- `decode_html_entities` — the source's chain of nine `replace` calls. -/
def decode_html_entities (text : String) : String :=
  rustReplace (rustReplace (rustReplace (rustReplace (rustReplace (rustReplace
    (rustReplace (rustReplace (rustReplace text
      "&amp;" "&") "&lt;" "<") "&gt;" ">") "&quot;" "\"") "&#39;" "'")
      "&nbsp;" " ") "&mdash;" "—") "&ndash;" "–") "&hellip;" "…"

/-- Collapse each maximal whitespace run to a single space (the regex
`\s+` replaced by one space); the flag records whether the previous
character was whitespace. -/
def collapseWsGo : Bool → List Char → List Char
  | _, [] => []
  | prevWs, c :: cs =>
    if isRustWhitespace c then
      if prevWs then collapseWsGo true cs else ' ' :: collapseWsGo true cs
    else c :: collapseWsGo false cs

/-- `MULTIPLE_SPACES_REGEX.replace_all(text, single space)`. -/
def collapseWs (l : List Char) : List Char := collapseWsGo false l

/-- `clean_html`: strip tags, decode entities, collapse whitespace, trim. -/
def clean_html (text : String) : String :=
  String.mk (rustTrim (collapseWs (decode_html_entities (String.mk (stripTags text.data))).data))

/-! ### Word-boundary truncation (src/utils/text.rs and
src/models/article.rs define the same `truncate_string`) -/

/-- Index of the last occurrence of `c`, if any (Rust `str::rfind`
expressed in character positions; truncating a string at the byte index of
a space keeps exactly the characters before that space). -/
def lastIdxOf (c : Char) : List Char → Option Nat
  | [] => none
  | x :: xs =>
    match lastIdxOf c xs with
    | some i => some (i + 1)
    | none => if x = c then some 0 else none

/-- The kept prefix of `truncate_string` in the long case: take the first
`max_chars` characters, then cut back to the last space if there is one. -/
def truncKept (text : List Char) (max_chars : Nat) : List Char :=
  match lastIdxOf ' ' (text.take max_chars) with
  | some last_space => (text.take max_chars).take last_space
  | none => text.take max_chars

/-- `truncate_string`: texts of byte length at most `max_chars` are
returned unchanged; longer texts keep the first `max_chars` characters,
cut back to the last space when one exists, with an ellipsis appended. -/
def truncate_string (text : String) (max_chars : Nat) : String :=
  if utf8Len text.data ≤ max_chars then text
  else String.mk (truncKept text.data max_chars ++ "...".data)

/-! ### Data model (src/models/article.rs), with `f64` as `ℚ` -/

/-- `WikipediaSearchItem` — one search hit. -/
structure WikipediaSearchItem where
  title : String
  snippet : String
  pageid : Option Nat
  size : Option Nat
  wordcount : Option Nat
  timestamp : Option String
deriving DecidableEq, Repr

/-- `Coordinates` (lat/lon are `f64` in the source, modelled as `ℚ`;
the program only tests their presence). -/
structure Coordinates where
  lat : ℚ
  lon : ℚ
deriving DecidableEq, Repr

/-- `ArticleBatchInfo` — enrichment data for one page. -/
structure ArticleBatchInfo where
  image_url : Option String
  extract : Option String
  wikidata_id : Option String
  coordinates : Option Coordinates
  categories : List String
deriving DecidableEq, Repr

/-- `EnrichedArticle`. -/
structure EnrichedArticle where
  basic_info : WikipediaSearchItem
  batch_info : Option ArticleBatchInfo
  wikidata_description : Option String
  article_url : String
  relevance_index : Option Int
deriving DecidableEq, Repr

/-- `EnrichedArticle::new` leaves `relevance_index` unset. -/
def EnrichedArticle.new (basic_info : WikipediaSearchItem)
    (batch_info : Option ArticleBatchInfo) (wikidata_description : Option String)
    (article_url : String) : EnrichedArticle :=
  { basic_info, batch_info, wikidata_description, article_url, relevance_index := none }

/-- `EnrichedArticle::with_relevance_index`. -/
def EnrichedArticle.with_relevance_index (a : EnrichedArticle)
    (index : Option Int) : EnrichedArticle :=
  { a with relevance_index := index }

/-- `EnrichedArticle::image_url`. -/
def EnrichedArticle.image_url (a : EnrichedArticle) : Option String :=
  a.batch_info.bind (fun info => info.image_url)

/-- `EnrichedArticle::has_coordinates`. -/
def EnrichedArticle.has_coordinates (a : EnrichedArticle) : Bool :=
  (a.batch_info.bind (fun info => info.coordinates)).isSome

/-- `EnrichedArticle::word_count`. -/
def EnrichedArticle.word_count (a : EnrichedArticle) : Option Nat :=
  a.basic_info.wordcount

/-- The common tail of `best_description` after the extract branch falls
through: a non-blank search snippet truncated, otherwise the generated
placeholder sentence naming the title. -/
def bestDescriptionFallback (a : EnrichedArticle) (max_length : Nat) : String :=
  if rustTrim a.basic_info.snippet.data ≠ [] then
    truncate_string a.basic_info.snippet max_length
  else "Статья из Википедии: " ++ a.basic_info.title

/-- `EnrichedArticle::best_description`: a non-blank extract truncated,
otherwise the snippet/title fallback. -/
def EnrichedArticle.best_description (a : EnrichedArticle) (max_length : Nat) : String :=
  match a.batch_info with
  | some batch_info =>
    match batch_info.extract with
    | some extract =>
      if rustTrim extract.data ≠ [] then truncate_string extract max_length
      else bestDescriptionFallback a max_length
    | none => bestDescriptionFallback a max_length
  | none => bestDescriptionFallback a max_length

/-- Upstream search response shape (`WikipediaSearchResponse`). -/
structure WikipediaSearchQuery where
  search : List WikipediaSearchItem
deriving DecidableEq, Repr

structure WikipediaSearchResponse where
  query : WikipediaSearchQuery
deriving DecidableEq, Repr

structure WikipediaThumbnail where
  source : String
  width : Nat
  height : Nat
deriving DecidableEq, Repr

structure WikipediaPageProps where
  wikibase_item : Option String
deriving DecidableEq, Repr

structure WikipediaCoordinate where
  lat : ℚ
  lon : ℚ
deriving DecidableEq, Repr

structure WikipediaCategory where
  title : String
deriving DecidableEq, Repr

/-- One page object of the batch-detail response. -/
structure WikipediaPageInfo where
  pageid : Nat
  title : String
  extract : Option String
  thumbnail : Option WikipediaThumbnail
  pageimage : Option String
  pageprops : Option WikipediaPageProps
  coordinates : Option (List WikipediaCoordinate)
  categories : Option (List WikipediaCategory)
deriving DecidableEq, Repr

/-- `WikipediaBatchResponse` (the `pages` HashMap as an association
list keyed by the page-id string). -/
structure WikipediaBatchQuery where
  pages : List (String × WikipediaPageInfo)
deriving DecidableEq, Repr

structure WikipediaBatchResponse where
  query : WikipediaBatchQuery
deriving DecidableEq, Repr

/-- One page object of the unified generator response, carrying the
server-assigned rank `index`. -/
structure UnifiedWikipediaPage where
  pageid : Nat
  title : String
  index : Option Int
  extract : Option String
  thumbnail : Option WikipediaThumbnail
  pageimage : Option String
  pageprops : Option WikipediaPageProps
  coordinates : Option (List WikipediaCoordinate)
  categories : Option (List WikipediaCategory)
deriving DecidableEq, Repr

structure UnifiedWikipediaQuery where
  pages : List (String × UnifiedWikipediaPage)
deriving DecidableEq, Repr

structure UnifiedWikipediaResponse where
  query : UnifiedWikipediaQuery
deriving DecidableEq, Repr

/-! ### Errors (src/errors.rs); wrapped foreign error values carry their
message text -/

inductive WikiError where
  | Network (msg : String)
  | Parse (msg : String)
  | UrlParse (msg : String)
  | NoResults (query : String)
  | InvalidLanguage (code : String)
  | Timeout
  | UnexpectedApiResponse
  | Cache (message : String)
  | Config (message : String)
  | Internal (message : String)
deriving DecidableEq, Repr

/-! ### The service and its collaborators (src/services/wikipedia.rs) -/

/-- The upstream endpoints as response functions: each field models one
kind of HTTP round trip, already decoded (an `Except.error` covers
transport failures, non-success status and body-decoding failures).
`searchResp` takes the `srsearch` text and the `srlimit` bound,
`batchResp` the page-id list, `unifiedResp` the `gsrsearch` text and the
`gsrlimit` bound. -/
structure WikipediaEnv where
  searchResp : String → Nat → SupportedLanguage → Except WikiError WikipediaSearchResponse
  batchResp : List Nat → SupportedLanguage → Except WikiError WikipediaBatchResponse
  unifiedResp : String → Nat → SupportedLanguage → Except WikiError UnifiedWikipediaResponse

/-- The configuration fields the pipeline reads. -/
structure WikipediaConfigM where
  max_search_results : Nat

/-- The three caches, modelled by their lookup functions. -/
structure WikipediaCaches where
  search_cache : String → Option (List WikipediaSearchItem)
  batch_cache : String → Option (List (Nat × ArticleBatchInfo))
  unified_cache : String → Option (List EnrichedArticle)

/-- `get_article_url`. -/
def hexDigitChar (n : Nat) : Char :=
  if n < 10 then Char.ofNat (48 + n) else Char.ofNat (55 + n)

/-- The UTF-8 encoding of a character as byte values. -/
def utf8Bytes (c : Char) : List Nat :=
  let v := c.toNat
  if v < 128 then [v]
  else if v < 2048 then [192 + v / 64, 128 + v % 64]
  else if v < 65536 then [224 + v / 4096, 128 + (v / 64) % 64, 128 + v % 64]
  else [240 + v / 262144, 128 + (v / 4096) % 64, 128 + (v / 64) % 64, 128 + v % 64]

/-- Bytes the `urlencoding` crate leaves unescaped. -/
def isUrlUnreserved (b : Nat) : Bool :=
  decide ((65 ≤ b ∧ b ≤ 90) ∨ (97 ≤ b ∧ b ≤ 122) ∨ (48 ≤ b ∧ b ≤ 57) ∨
    b = 45 ∨ b = 46 ∨ b = 95 ∨ b = 126)

/-- `urlencoding::encode`: percent-encode every non-unreserved UTF-8 byte. -/
def urlencode (s : String) : String :=
  String.mk (((s.data.map utf8Bytes).flatten).map (fun b =>
    if isUrlUnreserved b then [Char.ofNat b]
    else ['%', hexDigitChar (b / 16), hexDigitChar (b % 16)])).flatten

/-- `get_article_url`. -/
def get_article_url (title : String) (language : SupportedLanguage) : String :=
  "https://" ++ language.code ++ ".wikipedia.org/wiki/" ++ urlencode title

/-- `search_cache_key` — lowercased query, language code in the middle. -/
def search_cache_key (query : String) (language : SupportedLanguage) : String :=
  "search:" ++ language.code ++ ":" ++ rustToLowercase query

/-! Sorting: the source sorts with `Vec::sort_by`/`Vec::sort` (a stable
sort producing a permutation ordered by the comparator); modelled by a
stable insertion sort parameterised by a boolean comparator. -/

def insertLe {α : Type} (le : α → α → Bool) (a : α) : List α → List α
  | [] => [a]
  | b :: bs => if le a b then a :: b :: bs else b :: insertLe le a bs

def sortByLe {α : Type} (le : α → α → Bool) : List α → List α
  | [] => []
  | a :: as => insertLe le a (sortByLe le as)

/-- Numeric (= byte-wise) comparison of characters as Rust orders them. -/
def listLexLe : List Char → List Char → Bool
  | [], _ => true
  | _ :: _, [] => false
  | a :: as, b :: bs =>
    if a.toNat < b.toNat then true
    else if b.toNat < a.toNat then false
    else listLexLe as bs

/-- Rust's `Ord` on `String` (lexicographic byte order; UTF-8 byte order
coincides with code-point order). -/
def strLeB (a b : String) : Bool := listLexLe a.data b.data

/-- Nat comparison as a boolean, for sorting page ids. -/
def natLeB (a b : Nat) : Bool := decide (a ≤ b)

/-- Debug formatting of a `Vec<u64>` (`[1, 2]`). -/
def debugFmtNats (l : List Nat) : String :=
  "[" ++ String.intercalate ", " (l.map (fun n => toString n)) ++ "]"

/-- Debug formatting of a `Vec<String>` with quoted entries. -/
def debugFmtStrs (l : List String) : String :=
  "[" ++ String.intercalate ", " (l.map (fun s => "\"" ++ s ++ "\"")) ++ "]"

/-- `batch_cache_key` — page ids sorted before key construction. -/
def batch_cache_key (pageids : List Nat) (language : SupportedLanguage) : String :=
  "batch:" ++ language.code ++ ":" ++ debugFmtNats (sortByLe natLeB pageids)

/-- `WikidataService::cache_key` (src/services/wikidata.rs) — ids sorted
before key construction. -/
def wikidata_cache_key (wikidata_ids : List String) (language : SupportedLanguage) : String :=
  "wikidata:" ++ language.code ++ ":" ++ debugFmtStrs (sortByLe strLeB wikidata_ids)

/-- `search_internal`: one search round trip, snippets cleaned. -/
def search_internal (env : WikipediaEnv) (cfg : WikipediaConfigM) (query : String)
    (language : SupportedLanguage) : Except WikiError (List WikipediaSearchItem) :=
  match env.searchResp query cfg.max_search_results language with
  | .error e => .error e
  | .ok search_response =>
    .ok (search_response.query.search.map (fun item =>
      { item with snippet := clean_html item.snippet }))

/-- Insert into a HashMap modelled as an association list: the newest
binding wins on lookup. -/
def hmInsert {V : Type} (m : List (Nat × V)) (k : Nat) (v : V) : List (Nat × V) :=
  (k, v) :: m.filter (fun p => p.1 ≠ k)

/-- Build one `ArticleBatchInfo` from a batch page object. -/
def mkBatchInfo (page_info : WikipediaPageInfo) : ArticleBatchInfo :=
  { image_url := page_info.thumbnail.map (fun thumb => thumb.source)
    extract := page_info.extract
    wikidata_id := page_info.pageprops.bind (fun props => props.wikibase_item)
    coordinates := (page_info.coordinates.bind (fun coords => coords.head?)).map
      (fun coord => { lat := coord.lat, lon := coord.lon })
    categories := (page_info.categories.getD []).map (fun cat => cat.title) }

/-- `get_batch_info_internal`: empty input short-circuits; page ids that
fail to parse back from their string key are skipped. -/
def get_batch_info_internal (env : WikipediaEnv) (pageids : List Nat)
    (language : SupportedLanguage) : Except WikiError (List (Nat × ArticleBatchInfo)) :=
  if pageids.isEmpty then .ok []
  else
    match env.batchResp pageids language with
    | .error e => .error e
    | .ok batch_response =>
      .ok (batch_response.query.pages.foldl (fun result kv =>
        match kv.1.toNat? with
        | some page_id => hmInsert result page_id (mkBatchInfo kv.2)
        | none => result) [])

/-- `calculate_article_score` — the heuristic score as accumulated by the
source, in exact rational arithmetic. -/
def calculate_article_score (article : EnrichedArticle) : ℚ :=
  let score : ℚ := 0
  let score : ℚ :=
    match article.batch_info with
    | some batch_info =>
      let score := if batch_info.image_url.isSome then score + 10 else score
      let score :=
        match batch_info.extract with
        | some extract => score + min ((utf8Len extract.data : ℚ) / 100) 20
        | none => score
      let score := if batch_info.wikidata_id.isSome then score + 15 else score
      let score := if batch_info.coordinates.isSome then score + 5 else score
      score + (batch_info.categories.length : ℚ)
    | none => score
  match article.basic_info.wordcount with
  | some wordcount => score + min ((wordcount : ℚ) / 1000) 30
  | none => score

/-- `create_snippet_from_extract`: at most 200 bytes pass unchanged;
otherwise 197 characters are taken, cut back to the last space, with an
ellipsis appended. -/
def create_snippet_from_extract (extract : String) : String :=
  if utf8Len extract.data ≤ 200 then extract
  else
    let result := extract.data.take 197
    let result :=
      match lastIdxOf ' ' result with
      | some last_space => result.take last_space
      | none => result
    String.mk (result ++ "...".data)

/-- `get_batch_search_snippets`: one search over the OR-joined titles;
snippets matched back by case-insensitive exact title, blank-after-clean
snippets not inserted. -/
def get_batch_search_snippets (env : WikipediaEnv) (titles : List String)
    (language : SupportedLanguage) : Except WikiError (List (String × String)) :=
  if titles.isEmpty then .ok []
  else
    let search_query := String.intercalate " OR " titles
    match env.searchResp search_query (min (titles.length * 2) 50) language with
    | .error e => .error e
    | .ok search_response =>
      .ok (titles.filterMap (fun title =>
        match search_response.query.search.find?
          (fun a => rustToLowercase a.title == rustToLowercase title) with
        | some article =>
          let cleaned_snippet := clean_html article.snippet
          if rustTrim cleaned_snippet.data ≠ [] then some (title, cleaned_snippet)
          else none
        | none => none))

/-- Does this unified page carry a non-blank extract? -/
def hasUsableExtract (p : UnifiedWikipediaPage) : Bool :=
  match p.extract with
  | some e => !(rustTrim e.data).isEmpty
  | none => false

/-- Batch info assembled from a unified page object. -/
def mkUnifiedBatchInfo (page_info : UnifiedWikipediaPage) : ArticleBatchInfo :=
  { image_url := page_info.thumbnail.map (fun thumb => thumb.source)
    extract := page_info.extract
    wikidata_id := page_info.pageprops.bind (fun props => props.wikibase_item)
    coordinates := (page_info.coordinates.bind (fun coords => coords.head?)).map
      (fun coord => { lat := coord.lat, lon := coord.lon })
    categories := (page_info.categories.getD []).map (fun cat => cat.title) }

/-- Snippet selection for a unified page: a non-blank extract is
truncated; otherwise the batched fallback snippet for the title, or the
bare title. -/
def unifiedSnippet (fallback_snippets : List (String × String))
    (page_info : UnifiedWikipediaPage) : String :=
  match page_info.extract with
  | some extract =>
    if !(rustTrim extract.data).isEmpty then create_snippet_from_extract extract
    else (fallback_snippets.lookup page_info.title).getD page_info.title
  | none => (fallback_snippets.lookup page_info.title).getD page_info.title

/-- One enriched article assembled from a unified page object. -/
def mkUnifiedArticle (fallback_snippets : List (String × String))
    (page_info : UnifiedWikipediaPage) (language : SupportedLanguage) : EnrichedArticle :=
  let basic_info : WikipediaSearchItem :=
    { title := page_info.title
      snippet := unifiedSnippet fallback_snippets page_info
      pageid := some page_info.pageid
      size := none
      wordcount := none
      timestamp := none }
  (EnrichedArticle.new basic_info (some (mkUnifiedBatchInfo page_info)) none
    (get_article_url page_info.title language)).with_relevance_index page_info.index

/-- The source's sort comparator: ascending relevance index, indexed
articles first, then descending heuristic score. -/
def unifiedCmp (a b : EnrichedArticle) : Ordering :=
  match a.relevance_index, b.relevance_index with
  | some idx_a, some idx_b =>
    if idx_a < idx_b then .lt else if idx_b < idx_a then .gt else .eq
  | some _, none => .lt
  | none, some _ => .gt
  | none, none =>
    let score_a := calculate_article_score a
    let score_b := calculate_article_score b
    if score_b < score_a then .lt else if score_a < score_b then .gt else .eq

/-- The comparator as a boolean precedence test, as a stable sort uses it. -/
def unifiedLe (a b : EnrichedArticle) : Bool :=
  match unifiedCmp a b with
  | .gt => false
  | _ => true

/-- `search_and_get_info_unified`: empty-query guard, one generator round
trip, at most one batched fallback-snippet search (errors of which are
swallowed by `unwrap_or_default`), assembly, and the sort. -/
def search_and_get_info_unified (env : WikipediaEnv) (cfg : WikipediaConfigM)
    (query : String) (language : SupportedLanguage) :
    Except WikiError (List EnrichedArticle) :=
  if (rustTrim query.data).isEmpty then .error (.NoResults query)
  else
    match env.unifiedResp query cfg.max_search_results language with
    | .error e => .error e
    | .ok unified_response =>
      let temp_articles := unified_response.query.pages
      let titles_without_extract := temp_articles.filterMap (fun kv =>
        if !hasUsableExtract kv.2 then some kv.2.title else none)
      let fallback_snippets :=
        if !titles_without_extract.isEmpty then
          match get_batch_search_snippets env titles_without_extract language with
          | .ok m => m
          | .error _ => []
        else []
      let enriched_articles := temp_articles.map (fun kv =>
        mkUnifiedArticle fallback_snippets kv.2 language)
      .ok (sortByLe unifiedLe enriched_articles)

/-- Trait method `search`: empty-query guard, then cache, then the wire. -/
def serviceSearch (env : WikipediaEnv) (cfg : WikipediaConfigM)
    (caches : WikipediaCaches) (query : String) (language : SupportedLanguage) :
    Except WikiError (List WikipediaSearchItem) :=
  if (rustTrim query.data).isEmpty then .error (.NoResults query)
  else
    match caches.search_cache (search_cache_key query language) with
    | some cached_result => .ok cached_result
    | none => search_internal env cfg query language

/-- Trait method `get_batch_info`: empty input short-circuits, then cache,
then the wire. -/
def serviceGetBatchInfo (env : WikipediaEnv) (caches : WikipediaCaches)
    (pageids : List Nat) (language : SupportedLanguage) :
    Except WikiError (List (Nat × ArticleBatchInfo)) :=
  if pageids.isEmpty then .ok []
  else
    match caches.batch_cache (batch_cache_key pageids language) with
    | some cached_result => .ok cached_result
    | none => get_batch_info_internal env pageids language

/-- `get_enriched_articles` (the baseline path): search, zero-hit guard,
one batch, and the zip that drops id-less hits and records the ordinal
position as the relevance index. -/
def get_enriched_articles (env : WikipediaEnv) (cfg : WikipediaConfigM)
    (caches : WikipediaCaches) (query : String) (language : SupportedLanguage) :
    Except WikiError (List EnrichedArticle) :=
  match serviceSearch env cfg caches query language with
  | .error e => .error e
  | .ok articles =>
    if articles.isEmpty then .error (.NoResults query)
    else
      match (if !(articles.filterMap (fun article => article.pageid)).isEmpty then
          serviceGetBatchInfo env caches
            (articles.filterMap (fun article => article.pageid)) language
        else .ok []) with
      | .error e => .error e
      | .ok batch_info =>
        .ok (articles.enum.filterMap (fun p =>
          match p.2.pageid with
          | some pageid =>
            some ((EnrichedArticle.new p.2 (batch_info.lookup pageid) none
              (get_article_url p.2.title language)).with_relevance_index
                (some (p.1 : Int)))
          | none => none))

/-- `get_enriched_articles_optimized` (the preferred path): dedicated
cache, then the unified path; any unified failure falls back to the
baseline path. -/
def get_enriched_articles_optimized (env : WikipediaEnv) (cfg : WikipediaConfigM)
    (caches : WikipediaCaches) (query : String) (language : SupportedLanguage) :
    Except WikiError (List EnrichedArticle) :=
  match caches.unified_cache ("unified:" ++ language.code ++ ":" ++ rustToLowercase query) with
  | some cached_result => .ok cached_result
  | none =>
    match search_and_get_info_unified env cfg query language with
    | .ok enriched_articles => .ok enriched_articles
    | .error _ => get_enriched_articles env cfg caches query language

/-! ### General lemmas about the embedded operations -/

theorem insertLe_perm {α : Type} (le : α → α → Bool) (a : α) (l : List α) :
    List.Perm (insertLe le a l) (a :: l) := by
  induction l with
  | nil => exact List.Perm.refl _
  | cons b bs ih =>
    simp only [insertLe]
    split
    · exact List.Perm.refl _
    · exact (List.Perm.cons b ih).trans (List.Perm.swap a b bs)

theorem sortByLe_perm {α : Type} (le : α → α → Bool) (l : List α) :
    List.Perm (sortByLe le l) l := by
  induction l with
  | nil => exact List.Perm.refl _
  | cons a as ih => exact (insertLe_perm le a (sortByLe le as)).trans (ih.cons a)

theorem insertLe_pairwise {α : Type} (le : α → α → Bool)
    (total : ∀ x y, le x y = true ∨ le y x = true)
    (trans : ∀ x y z, le x y = true → le y z = true → le x z = true)
    (a : α) (l : List α) (h : l.Pairwise (fun x y => le x y = true)) :
    (insertLe le a l).Pairwise (fun x y => le x y = true) := by
  induction l with
  | nil => simp [insertLe]
  | cons b bs ih =>
    simp only [insertLe]
    rcases h with _ | ⟨hb, hbs⟩
    split
    · next hab =>
      refine List.Pairwise.cons ?_ (List.Pairwise.cons hb hbs)
      intro x hx
      rcases List.mem_cons.mp hx with rfl | hx
      · exact hab
      · exact trans a b x hab (hb x hx)
    · next hab =>
      have hba : le b a = true := by
        rcases total a b with h' | h'
        · exact absurd h' hab
        · exact h'
      refine List.Pairwise.cons ?_ (ih hbs)
      intro x hx
      have hx' := (insertLe_perm le a bs).mem_iff.mp hx
      rcases List.mem_cons.mp hx' with rfl | hx''
      · exact hba
      · exact hb x hx''

theorem sortByLe_pairwise {α : Type} (le : α → α → Bool)
    (total : ∀ x y, le x y = true ∨ le y x = true)
    (trans : ∀ x y z, le x y = true → le y z = true → le x z = true)
    (l : List α) : (sortByLe le l).Pairwise (fun x y => le x y = true) := by
  induction l with
  | nil => simp [sortByLe]
  | cons a as ih => exact insertLe_pairwise le total trans a _ ih

theorem listLexLe_cons_iff {a b : Char} {as bs : List Char} :
    listLexLe (a :: as) (b :: bs) = true ↔
      a.toNat < b.toNat ∨ (a.toNat = b.toNat ∧ listLexLe as bs = true) := by
  simp only [listLexLe]
  by_cases h1 : a.toNat < b.toNat
  · simp [h1]
  · by_cases h2 : b.toNat < a.toNat
    · simp [h1, h2]
      omega
    · have h3 : a.toNat = b.toNat := by omega
      simp [h1, h2, h3]

theorem listLexLe_total : ∀ x y, listLexLe x y = true ∨ listLexLe y x = true := by
  intro x
  induction x with
  | nil => intro y; left; rfl
  | cons a as ih =>
    intro y
    cases y with
    | nil => right; rfl
    | cons b bs =>
      rw [listLexLe_cons_iff, listLexLe_cons_iff]
      rcases Nat.lt_trichotomy a.toNat b.toNat with h | h | h
      · left; exact Or.inl h
      · rcases ih bs with h' | h'
        · exact Or.inl (Or.inr ⟨h, h'⟩)
        · exact Or.inr (Or.inr ⟨h.symm, h'⟩)
      · right; exact Or.inl h

theorem listLexLe_trans : ∀ x y z, listLexLe x y = true → listLexLe y z = true →
    listLexLe x z = true := by
  intro x
  induction x with
  | nil => intros; rfl
  | cons a as ih =>
    intro y z hxy hyz
    cases y with
    | nil => simp [listLexLe] at hxy
    | cons b bs =>
      cases z with
      | nil => simp [listLexLe] at hyz
      | cons c cs =>
        rw [listLexLe_cons_iff] at hxy hyz ⊢
        rcases hxy with h1 | ⟨h1, h1s⟩ <;> rcases hyz with h2 | ⟨h2, h2s⟩
        · exact Or.inl (by omega)
        · exact Or.inl (by omega)
        · exact Or.inl (by omega)
        · exact Or.inr ⟨by omega, ih bs cs h1s h2s⟩

theorem listLexLe_antisymm : ∀ x y, listLexLe x y = true → listLexLe y x = true → x = y := by
  intro x
  induction x with
  | nil =>
    intro y _ hyx
    cases y with
    | nil => rfl
    | cons b bs => simp [listLexLe] at hyx
  | cons a as ih =>
    intro y hxy hyx
    cases y with
    | nil => simp [listLexLe] at hxy
    | cons b bs =>
      rw [listLexLe_cons_iff] at hxy hyx
      rcases hxy with h1 | ⟨h1, h1s⟩ <;> rcases hyx with h2 | ⟨h2, h2s⟩ <;> try omega
      have hab : a = b := Char.eq_of_val_eq (UInt32.toNat.inj (by simpa [Char.toNat] using h1))
      subst hab
      rw [ih bs h1s h2s]

theorem strLeB_total (a b : String) : strLeB a b = true ∨ strLeB b a = true :=
  listLexLe_total a.data b.data

theorem strLeB_trans (a b c : String) : strLeB a b = true → strLeB b c = true →
    strLeB a c = true :=
  listLexLe_trans a.data b.data c.data

theorem strLeB_antisymm (a b : String) : strLeB a b = true → strLeB b a = true → a = b := by
  intro h1 h2
  have := listLexLe_antisymm a.data b.data h1 h2
  exact congrArg String.mk this

/-- Sorting by an antisymmetric total transitive boolean order is a
canonical form: permutable inputs sort identically. -/
theorem sortByLe_eq_of_perm {α : Type} (le : α → α → Bool)
    (total : ∀ x y, le x y = true ∨ le y x = true)
    (trans : ∀ x y z, le x y = true → le y z = true → le x z = true)
    (antisymm : ∀ x y, le x y = true → le y x = true → x = y)
    {l l' : List α} (h : List.Perm l l') : sortByLe le l = sortByLe le l' := by
  haveI : IsAntisymm α (fun x y => le x y = true) := ⟨antisymm⟩
  exact List.eq_of_perm_of_sorted
    (((sortByLe_perm le l).trans h).trans (sortByLe_perm le l').symm)
    (sortByLe_pairwise le total trans l)
    (sortByLe_pairwise le total trans l')

theorem utf8Size_one {c : Char} (h : c.toNat < 128) : c.utf8Size = 1 := by
  simp only [Char.utf8Size]
  rw [if_pos]
  rw [UInt32.le_def, BitVec.le_def]
  show c.val.toBitVec.toNat ≤ 127
  simp only [Char.toNat] at h
  exact Nat.le_of_lt_succ h

theorem toLower_toLower (c : Char) : c.toLower.toLower = c.toLower := by
  simp only [Char.toLower]
  by_cases h : c.toNat ≥ 65 ∧ c.toNat ≤ 90
  · rw [if_pos h]
    have hv : (Char.ofNat (c.toNat + 32)).toNat = c.toNat + 32 := by
      rw [Char.ofNat, dif_pos (by left; change c.toNat + 32 < 55296; omega)]
      rfl
    rw [if_neg (by omega)]
  · rw [if_neg h, if_neg h]

theorem toLower_lower_range {c : Char} (h1 : 97 ≤ c.toLower.toNat)
    (h2 : c.toLower.toNat ≤ 122) : c.toNat < 128 ∧ c ≠ ':' := by
  simp only [Char.toLower] at h1 h2
  by_cases h : c.toNat ≥ 65 ∧ c.toNat ≤ 90
  · refine ⟨by omega, ?_⟩
    intro hc; subst hc
    exact absurd h (by decide)
  · rw [if_neg h] at h1 h2
    refine ⟨by omega, ?_⟩
    intro hc; subst hc
    exact absurd h1 (by decide)

theorem length_le_utf8Len (l : List Char) : l.length ≤ utf8Len l := by
  induction l with
  | nil => simp [utf8Len]
  | cons c cs ih =>
    have := Char.utf8Size_pos c
    simp only [utf8Len, List.map_cons, List.sum_cons, List.length_cons] at ih ⊢
    omega

theorem utf8Len_of_unit {l : List Char} (h : ∀ c ∈ l, c.utf8Size = 1) :
    utf8Len l = l.length := by
  induction l with
  | nil => rfl
  | cons c cs ih =>
    simp only [utf8Len, List.map_cons, List.sum_cons, List.length_cons] at ih ⊢
    rw [h c (List.mem_cons_self ..), ih (fun d hd => h d (List.mem_cons_of_mem _ hd))]
    omega

theorem lastIdxOf_spec {c : Char} : ∀ {l : List Char} {i : Nat},
    lastIdxOf c l = some i → i < l.length ∧ l[i]? = some c := by
  intro l
  induction l with
  | nil => intro i h; simp [lastIdxOf] at h
  | cons x xs ih =>
    intro i h
    simp only [lastIdxOf] at h
    cases hx : lastIdxOf c xs with
    | some j =>
      rw [hx] at h
      injection h with h
      subst h
      have hj := ih hx
      refine ⟨by simpa using Nat.succ_lt_succ hj.1, ?_⟩
      simpa [List.getElem?_cons_succ] using hj.2
    | none =>
      rw [hx] at h
      by_cases hxc : x = c
      · rw [if_pos hxc] at h
        injection h with h
        subst h
        simp [hxc]
      · rw [if_neg hxc] at h
        cases h

/-! ### Claim C4 — word-boundary truncation -/

/-- Claim C4 exactly as stated, at one input: an already-short text (by
the source's byte-length test) comes back unchanged, the result stays
within the budget plus the ellipsis, and a truncated text is cut so that
the character of the original following the kept prefix is a space (the
truncation never splits a word). -/
def C4Claim (text : String) (N : Nat) : Prop :=
  (utf8Len text.data ≤ N → truncate_string text N = text) ∧
  (truncate_string text N).data.length ≤ N + 3 ∧
  (N < utf8Len text.data → text.data[(truncKept text.data N).length]? = some ' ')

/-- C4: counterexample — when the first `N` characters contain no space at
all, the source keeps the whole `N`-character prefix and so splits the
word: truncating the single word `abcdefghijkl` to 10 gives
`abcdefghij...`. -/
theorem C4_counterexample : ¬ C4Claim "abcdefghijkl" 10 := by
  unfold C4Claim
  decide

/-- C4 (amended): word-boundary truncation returns a text of byte length
at most `N` unchanged with no ellipsis appended; the result never exceeds
`N` characters plus the ellipsis marker; and whenever the first-`N`
character prefix of a longer text contains a space, the cut is at the last
such space (so no word is split); when that prefix contains no space the
whole prefix is kept, splitting the word. -/
theorem C4_amended (text : String) (N : Nat) :
    (utf8Len text.data ≤ N → truncate_string text N = text) ∧
    (truncate_string text N).data.length ≤ N + 3 ∧
    (N < utf8Len text.data →
      (∀ i, lastIdxOf ' ' (text.data.take N) = some i →
        truncate_string text N = String.mk (text.data.take i ++ "...".data) ∧
        text.data[i]? = some ' ') ∧
      (lastIdxOf ' ' (text.data.take N) = none →
        truncate_string text N = String.mk (text.data.take N ++ "...".data))) := by
  refine ⟨?_, ?_, ?_⟩
  · intro h
    simp [truncate_string, h]
  · by_cases h : utf8Len text.data ≤ N
    · rw [truncate_string, if_pos h]
      have := length_le_utf8Len text.data
      omega
    · rw [truncate_string, if_neg h]
      show (truncKept text.data N ++ "...".data).length ≤ N + 3
      rw [List.length_append]
      have hk : (truncKept text.data N).length ≤ N := by
        unfold truncKept
        cases hl : lastIdxOf ' ' (text.data.take N) <;>
          simp [List.length_take]
      have : ("...".data).length = 3 := rfl
      omega
  · intro hN
    constructor
    · intro i hi
      have hspec := lastIdxOf_spec hi
      have hiN : i < N := lt_of_lt_of_le hspec.1 (List.length_take_le ..)
      constructor
      · rw [truncate_string, if_neg (by omega)]
        have hkept : truncKept text.data N = text.data.take i := by
          unfold truncKept
          rw [hi]
          show List.take i (List.take N text.data) = List.take i text.data
          rw [List.take_take]
          congr 1
          omega
        rw [hkept]
      · have h2 := hspec.2
        rwa [List.getElem?_take, if_pos hiN] at h2
    · intro hnone
      rw [truncate_string, if_neg (by omega)]
      have hkept : truncKept text.data N = text.data.take N := by
        unfold truncKept
        rw [hnone]
      rw [hkept]

/-- C4 amended, witnessed at the spec's own example and at a short text:
the long text is cut at its last in-budget space and the short text passes
unchanged. -/
theorem C4_amended_witness :
    truncate_string "this is a long text" 10 =
      String.mk ("this is a long text".data.take 9 ++ "...".data) ∧
    "this is a long text".data[9]? = some ' ' ∧
    truncate_string "short" 10 = "short" := by
  have hlong := ((C4_amended "this is a long text" 10).2.2 (by decide)).1 9 (by decide)
  exact ⟨hlong.1, hlong.2, (C4_amended "short" 10).1 (by decide)⟩

/-! ### Claim C7 — the heuristic score -/

/-- C7: the heuristic score of an enriched article equals the additive sum
from the spec: 10 for an image, the capped extract-length reward, 15 for a
cross-reference id, 5 for coordinates, one point per category, and the
capped word-count reward when a word count is known; no term depends on
the language. -/
theorem C7_score_formula (article : EnrichedArticle) :
    calculate_article_score article =
      (if article.image_url.isSome then 10 else 0)
      + (match article.batch_info.bind (fun bi => bi.extract) with
         | some extract => min ((utf8Len extract.data : ℚ) / 100) 20
         | none => 0)
      + (if (article.batch_info.bind (fun bi => bi.wikidata_id)).isSome then 15 else 0)
      + (if article.has_coordinates then 5 else 0)
      + (((article.batch_info.map (fun bi => bi.categories.length)).getD 0 : Nat) : ℚ)
      + (match article.basic_info.wordcount with
         | some wordcount => min ((wordcount : ℚ) / 1000) 30
         | none => 0) := by
  obtain ⟨basic, binfo, wdesc, url, ridx⟩ := article
  cases binfo with
  | none =>
    cases hwc : basic.wordcount <;>
      simp [calculate_article_score, EnrichedArticle.image_url,
        EnrichedArticle.has_coordinates, hwc]
  | some bi =>
    obtain ⟨img, ext, wid, coords, cats⟩ := bi
    cases img <;> cases ext <;> cases wid <;> cases coords <;>
      cases hwc : basic.wordcount <;>
        simp [calculate_article_score, EnrichedArticle.image_url,
          EnrichedArticle.has_coordinates, hwc]

/-! ### Claim C10 — display-description selection -/

theorem ne_empty_of_trim {s : String} (h : rustTrim s.data ≠ []) : s ≠ "" := by
  intro hc
  subst hc
  exact h rfl

theorem truncate_string_ne_empty {s : String} (h : s ≠ "") (n : Nat) :
    truncate_string s n ≠ "" := by
  intro hc
  rw [truncate_string] at hc
  split at hc
  · exact h hc
  · have := congrArg String.data hc
    simp at this

theorem bestDescriptionFallback_spec (a : EnrichedArticle) (n : Nat) :
    bestDescriptionFallback a n ≠ "" ∧
    (rustTrim a.basic_info.snippet.data ≠ [] →
      bestDescriptionFallback a n = truncate_string a.basic_info.snippet n) ∧
    (rustTrim a.basic_info.snippet.data = [] →
      bestDescriptionFallback a n = "Статья из Википедии: " ++ a.basic_info.title) := by
  refine ⟨?_, ?_, ?_⟩
  · rw [bestDescriptionFallback]
    split
    · next hsnip => exact truncate_string_ne_empty (ne_empty_of_trim hsnip) n
    · intro hc
      have := congrArg String.data hc
      simp [String.data_append] at this
  · intro h
    rw [bestDescriptionFallback, if_pos h]
  · intro h
    rw [bestDescriptionFallback, if_neg (by simp [h])]

/-- C10: `best_description` always yields a non-empty string, preferring
the truncated non-blank extract, then the truncated non-blank snippet,
then the generated placeholder sentence naming the title. -/
theorem C10_best_description (a : EnrichedArticle) (n : Nat) :
    a.best_description n ≠ "" ∧
    (∀ bi e, a.batch_info = some bi → bi.extract = some e → rustTrim e.data ≠ [] →
      a.best_description n = truncate_string e n) ∧
    ((∀ bi e, a.batch_info = some bi → bi.extract = some e → rustTrim e.data = []) →
      rustTrim a.basic_info.snippet.data ≠ [] →
      a.best_description n = truncate_string a.basic_info.snippet n) ∧
    ((∀ bi e, a.batch_info = some bi → bi.extract = some e → rustTrim e.data = []) →
      rustTrim a.basic_info.snippet.data = [] →
      a.best_description n = "Статья из Википедии: " ++ a.basic_info.title) := by
  obtain ⟨basic, binfo, wdesc, url, ridx⟩ := a
  have hfb := bestDescriptionFallback_spec ⟨basic, binfo, wdesc, url, ridx⟩ n
  cases binfo with
  | none =>
    refine ⟨?_, ?_, ?_, ?_⟩
    · simpa [EnrichedArticle.best_description] using hfb.1
    · intro bi e hbi
      cases hbi
    · intro _ hsnip
      simpa [EnrichedArticle.best_description] using hfb.2.1 hsnip
    · intro _ hsnip
      simpa [EnrichedArticle.best_description] using hfb.2.2 hsnip
  | some bi =>
    obtain ⟨img, ext, wid, coords, cats⟩ := bi
    cases ext with
    | none =>
      refine ⟨?_, ?_, ?_, ?_⟩
      · simpa [EnrichedArticle.best_description] using hfb.1
      · intro bi e hbi he
        injection hbi with hbi
        subst hbi
        cases he
      · intro _ hsnip
        simpa [EnrichedArticle.best_description] using hfb.2.1 hsnip
      · intro _ hsnip
        simpa [EnrichedArticle.best_description] using hfb.2.2 hsnip
    | some e =>
      by_cases htr : rustTrim e.data = []
      · have hred : EnrichedArticle.best_description
            ⟨basic, some ⟨img, some e, wid, coords, cats⟩, wdesc, url, ridx⟩ n =
            bestDescriptionFallback
              ⟨basic, some ⟨img, some e, wid, coords, cats⟩, wdesc, url, ridx⟩ n := by
          simp [EnrichedArticle.best_description, htr]
        refine ⟨?_, ?_, ?_, ?_⟩
        · rw [hred]; exact hfb.1
        · intro bi e2 hbi he2 htr2
          injection hbi with hbi
          subst hbi
          injection he2 with he2
          subst he2
          exact absurd htr htr2
        · intro _ hsnip
          rw [hred]; exact hfb.2.1 hsnip
        · intro _ hsnip
          rw [hred]; exact hfb.2.2 hsnip
      · have hred : EnrichedArticle.best_description
            ⟨basic, some ⟨img, some e, wid, coords, cats⟩, wdesc, url, ridx⟩ n =
            truncate_string e n := by
          simp [EnrichedArticle.best_description, htr]
        refine ⟨?_, ?_, ?_, ?_⟩
        · rw [hred]
          exact truncate_string_ne_empty (ne_empty_of_trim htr) n
        · intro bi e2 hbi he2 _
          injection hbi with hbi
          subst hbi
          injection he2 with he2
          subst he2
          exact hred
        · intro hall _
          exact absurd (hall _ e rfl rfl) htr
        · intro hall _
          exact absurd (hall _ e rfl rfl) htr

/-- The source's unit-test article: extract present and non-blank. -/
def artC10a : EnrichedArticle :=
  ⟨⟨"Test", "Basic snippet", some 123, none, none, none⟩,
    some ⟨none, some "Better extract", none, none, []⟩,
    some "Best description", "urlx", none⟩

/-- An article with no enrichment, a blank snippet and an empty title. -/
def artC10b : EnrichedArticle :=
  ⟨⟨"", " ", none, none, none, none⟩, none, none, "urly", none⟩

/-- C10, witnessed at the source's own unit-test article (extract
present and non-blank) and at a bare article whose description falls back
to the placeholder sentence, non-empty even for an empty title. -/
theorem C10_witness :
    artC10a.best_description 100 = truncate_string "Better extract" 100 ∧
    artC10b.best_description 10 = "Статья из Википедии: " ++ "" ∧
    artC10b.best_description 10 ≠ "" := by
  refine ⟨?_, ?_, ?_⟩
  · exact (C10_best_description artC10a 100).2.1
      ⟨none, some "Better extract", none, none, []⟩ "Better extract" rfl rfl (by decide)
  · exact (C10_best_description artC10b 10).2.2.2 (fun bi e hbi => nomatch hbi) (by decide)
  · exact (C10_best_description artC10b 10).1

/-! ### Claim C5 — the language resolver -/

theorem languageCodes_wf : ∀ kv ∈ languageCodes, kv.1.data.length = 2 ∧
    ∀ c ∈ kv.1.data, 97 ≤ c.toNat ∧ c.toNat ≤ 122 := by decide

/-- A recognized code prefix consists of exactly two one-byte characters,
none of which is a colon. -/
theorem from_code_facts {p : List Char} {l : SupportedLanguage}
    (h : SupportedLanguage.from_code (String.mk p) = some l) :
    p.length = 2 ∧ ∀ c ∈ p, c.utf8Size = 1 ∧ c ≠ ':' := by
  unfold SupportedLanguage.from_code at h
  cases hf : languageCodes.find? (fun kv => kv.1 == rustToLowercase (String.mk p)) with
  | none => rw [hf] at h; cases h
  | some kv =>
    have hpred := List.find?_some hf
    have hmem : kv ∈ languageCodes := List.mem_of_find?_eq_some hf
    have hkey : kv.1 = rustToLowercase (String.mk p) := eq_of_beq hpred
    have hwf := languageCodes_wf kv hmem
    have hdata : kv.1.data = p.map Char.toLower := congrArg String.data hkey
    constructor
    · have hlen := hwf.1
      rw [hdata, List.length_map] at hlen
      exact hlen
    · intro c hc
      have hcl : Char.toLower c ∈ kv.1.data := by
        rw [hdata]
        exact List.mem_map_of_mem _ hc
      have hb := hwf.2 _ hcl
      have hr := toLower_lower_range hb.1 hb.2
      exact ⟨utf8Size_one hr.1, hr.2⟩

theorem splitAtFirstColon_append {p rest : List Char} (hp : ∀ c ∈ p, c ≠ ':') :
    splitAtFirstColon (p ++ ':' :: rest) = some (p, rest) := by
  induction p with
  | nil => simp [splitAtFirstColon]
  | cons c cs ih =>
    have hc : c ≠ ':' := hp c (List.mem_cons_self ..)
    simp only [List.cons_append, splitAtFirstColon, if_neg hc, List.append_eq]
    rw [ih (fun d hd => hp d (List.mem_cons_of_mem _ hd))]
    rfl

/-- Does the query carry a recognized language prefix before its first
colon?  (A recognized prefix never contains a colon, so the first-colon
decomposition is the only candidate.) -/
def parseRecognizesPrefix (q : String) : Bool :=
  match splitAtFirstColon q.data with
  | some (pre, _) => (SupportedLanguage.from_code (String.mk pre)).isSome
  | none => false

theorem parse_eq_of_split {q : String} {pre post : List Char}
    (h : splitAtFirstColon q.data = some (pre, post)) :
    parse_query_with_language q =
      (if 0 < utf8Len pre ∧ utf8Len pre < 5 then
        match SupportedLanguage.from_code (String.mk pre) with
        | some language => (language, String.mk (rustTrim post))
        | none => (SupportedLanguage.default, q)
      else (SupportedLanguage.default, q)) := by
  unfold parse_query_with_language
  rw [h]

theorem parseRecognizes_of_split {q : String} {pre post : List Char}
    (h : splitAtFirstColon q.data = some (pre, post)) :
    parseRecognizesPrefix q = (SupportedLanguage.from_code (String.mk pre)).isSome := by
  unfold parseRecognizesPrefix
  rw [h]

/-- C5: a query starting with a recognized 2–4 character language-code
prefix and a colon resolves to that language (the prefix is matched
case-insensitively through the lowercasing in `from_code`) with the
remainder whitespace-trimmed; any query with no recognized prefix before
its first colon resolves to the default language (Russian) with the query
text unchanged. -/
theorem C5_parse_query (p rest q : String) (l : SupportedLanguage)
    (hp2 : 2 ≤ p.data.length) (hp4 : p.data.length ≤ 4)
    (hfc : SupportedLanguage.from_code p = some l)
    (hq : parseRecognizesPrefix q = false) :
    parse_query_with_language (p ++ ":" ++ rest) = (l, String.mk (rustTrim rest.data)) ∧
    parse_query_with_language q = (SupportedLanguage.default, q) := by
  constructor
  · have hfacts := from_code_facts
      (show SupportedLanguage.from_code (String.mk p.data) = some l from hfc)
    have hnc : ∀ c ∈ p.data, c ≠ ':' := fun c hc => (hfacts.2 c hc).2
    have hdata : (p ++ ":" ++ rest).data = p.data ++ ':' :: rest.data := by
      simp [String.data_append]
    have hsplit : splitAtFirstColon (p ++ ":" ++ rest).data = some (p.data, rest.data) := by
      rw [hdata]
      exact splitAtFirstColon_append hnc
    rw [parse_eq_of_split hsplit]
    have hlen : utf8Len p.data = 2 := by
      rw [utf8Len_of_unit (fun c hc => (hfacts.2 c hc).1), hfacts.1]
    rw [if_pos (by omega)]
    rw [show SupportedLanguage.from_code (String.mk p.data) = some l from hfc]
  · cases hs : splitAtFirstColon q.data with
    | none =>
      unfold parse_query_with_language
      rw [hs]
    | some pr =>
      obtain ⟨pre, post⟩ := pr
      rw [parseRecognizes_of_split hs] at hq
      rw [parse_eq_of_split hs]
      cases hfc2 : SupportedLanguage.from_code (String.mk pre) with
      | some l2 => simp [hfc2] at hq
      | none => split <;> rfl

/-- C5, witnessed at an uppercase recognized prefix with surrounding
whitespace in the remainder, and at the spec's unknown-code example. -/
theorem C5_witness :
    parse_query_with_language ("EN" ++ ":" ++ " Einstein") =
      (SupportedLanguage.English, String.mk (rustTrim " Einstein".data)) ∧
    parse_query_with_language "zz:Einstein" = (SupportedLanguage.default, "zz:Einstein") :=
  C5_parse_query "EN" " Einstein" "zz:Einstein" SupportedLanguage.English
    (by decide) (by decide) (by decide) (by decide)

/-! ### Claim C8 — cache keys -/

theorem code_two : ∀ l : SupportedLanguage, (SupportedLanguage.code l).data.length = 2 := by
  decide

theorem code_inj : ∀ l1 l2 : SupportedLanguage,
    SupportedLanguage.code l1 = SupportedLanguage.code l2 → l1 = l2 := by
  decide

theorem rustToLowercase_idem (q : String) :
    rustToLowercase (rustToLowercase q) = rustToLowercase q := by
  unfold rustToLowercase
  refine congrArg String.mk ?_
  show (q.data.map Char.toLower).map Char.toLower = q.data.map Char.toLower
  rw [List.map_map]
  exact List.map_congr_left (fun c _ => toLower_toLower c)

/-- A cache key of the shape prefix/code/colon/suffix determines the
language: all codes have length two. -/
theorem key_lang_inj {pre : String} {l1 l2 : SupportedLanguage} {s1 s2 : String}
    (h : pre ++ l1.code ++ ":" ++ s1 = pre ++ l2.code ++ ":" ++ s2) : l1 = l2 := by
  apply code_inj
  have hd := congrArg String.data h
  simp only [String.data_append, List.append_assoc] at hd
  have hd2 := List.append_cancel_left hd
  have hlen : (SupportedLanguage.code l1).data.length =
      (SupportedLanguage.code l2).data.length := by
    rw [code_two, code_two]
  have hcode := (List.append_inj hd2 hlen).1
  exact congrArg String.mk hcode

/-- C8: the search key is case-insensitive in the query, the wikidata key
is order-insensitive in the id set, and both keys separate languages. -/
theorem C8_cache_keys (l l1 l2 : SupportedLanguage) (q : String) (ids ids' : List String)
    (hperm : List.Perm ids ids') (hne : l1 ≠ l2) :
    search_cache_key q l = search_cache_key (rustToLowercase q) l ∧
    wikidata_cache_key ids l = wikidata_cache_key ids' l ∧
    search_cache_key q l1 ≠ search_cache_key q l2 ∧
    wikidata_cache_key ids l1 ≠ wikidata_cache_key ids l2 := by
  refine ⟨?_, ?_, ?_, ?_⟩
  · unfold search_cache_key
    rw [rustToLowercase_idem]
  · unfold wikidata_cache_key
    rw [sortByLe_eq_of_perm strLeB strLeB_total strLeB_trans strLeB_antisymm hperm]
  · intro h
    exact hne (@key_lang_inj "search:" l1 l2 _ _ h)
  · intro h
    exact hne (@key_lang_inj "wikidata:" l1 l2 _ _ h)

/-- C8, witnessed on the source's unit-test inputs. -/
theorem C8_witness :
    search_cache_key "Test" SupportedLanguage.English =
      search_cache_key (rustToLowercase "Test") SupportedLanguage.English ∧
    wikidata_cache_key ["Q456", "Q123"] SupportedLanguage.English =
      wikidata_cache_key ["Q123", "Q456"] SupportedLanguage.English ∧
    search_cache_key "Test" SupportedLanguage.English ≠
      search_cache_key "Test" SupportedLanguage.Russian ∧
    wikidata_cache_key ["Q456", "Q123"] SupportedLanguage.English ≠
      wikidata_cache_key ["Q456", "Q123"] SupportedLanguage.Russian :=
  C8_cache_keys SupportedLanguage.English SupportedLanguage.English
    SupportedLanguage.Russian "Test" ["Q456", "Q123"] ["Q123", "Q456"]
    (List.Perm.swap "Q123" "Q456" []) (by decide)

/-! ### Claim C6 — empty queries fail early -/

/-- C6: a blank query makes both the search client and the unified client
fail with `NoResults` carrying the original query, for every environment —
in particular the result does not depend on any upstream response, because
none is requested. -/
theorem C6_empty_query (env : WikipediaEnv) (cfg : WikipediaConfigM)
    (caches : WikipediaCaches) (q : String) (l : SupportedLanguage)
    (h : rustTrim q.data = []) :
    serviceSearch env cfg caches q l = .error (.NoResults q) ∧
    search_and_get_info_unified env cfg q l = .error (.NoResults q) := by
  constructor
  · unfold serviceSearch
    rw [if_pos (by rw [h]; rfl)]
  · unfold search_and_get_info_unified
    rw [if_pos (by rw [h]; rfl)]

/-- An environment in which every endpoint fails. -/
def envTriv : WikipediaEnv :=
  ⟨fun _ _ _ => .error .Timeout, fun _ _ => .error .Timeout, fun _ _ _ => .error .Timeout⟩

def cfg0 : WikipediaConfigM := ⟨50⟩

def caches0 : WikipediaCaches := ⟨fun _ => none, fun _ => none, fun _ => none⟩

/-- C6, witnessed at a whitespace-only query. -/
theorem C6_witness :
    serviceSearch envTriv cfg0 caches0 " " SupportedLanguage.Russian =
      .error (.NoResults " ") ∧
    search_and_get_info_unified envTriv cfg0 " " SupportedLanguage.Russian =
      .error (.NoResults " ") :=
  C6_empty_query envTriv cfg0 caches0 " " SupportedLanguage.Russian (by decide)

/-! ### Claim C1 — fallback transparency of the optimized path -/

/-- C1: with no cached entry, a unified-path failure makes the optimized
path return exactly the baseline path's result for the same query and
language; and whenever the optimized path surfaces an error, the baseline
path itself produced that error. -/
theorem C1_optimized_fallback (env : WikipediaEnv) (cfg : WikipediaConfigM)
    (caches : WikipediaCaches) (q : String) (l : SupportedLanguage) :
    (caches.unified_cache ("unified:" ++ l.code ++ ":" ++ rustToLowercase q) = none →
      ∀ e, search_and_get_info_unified env cfg q l = .error e →
        get_enriched_articles_optimized env cfg caches q l =
          get_enriched_articles env cfg caches q l) ∧
    (∀ e, get_enriched_articles_optimized env cfg caches q l = .error e →
      get_enriched_articles env cfg caches q l = .error e) := by
  constructor
  · intro hc e hu
    unfold get_enriched_articles_optimized
    rw [hc, hu]
  · intro e h
    unfold get_enriched_articles_optimized at h
    cases hc : caches.unified_cache ("unified:" ++ l.code ++ ":" ++ rustToLowercase q) with
    | some v =>
      rw [hc] at h
      cases h
    | none =>
      rw [hc] at h
      cases hu : search_and_get_info_unified env cfg q l with
      | ok v => rw [hu] at h; cases h
      | error e2 => rw [hu] at h; exact h

/-- Unified endpoint down, search endpoint up with one hit. -/
def envC1 : WikipediaEnv :=
  { searchResp := fun _ _ _ => .ok ⟨⟨[⟨"A", "sa", some 1, none, none, none⟩]⟩⟩
    batchResp := fun _ _ => .ok ⟨⟨[]⟩⟩
    unifiedResp := fun _ _ _ => .error .Timeout }

/-- Everything down; the search endpoint reports a transport error. -/
def envErr : WikipediaEnv :=
  { searchResp := fun _ _ _ => .error (.Network "down")
    batchResp := fun _ _ => .error (.Network "down")
    unifiedResp := fun _ _ _ => .error .Timeout }

/-- C1, witnessed with a simulated unified transport failure: the
optimized path returns the baseline result, and when the baseline also
fails its error is what the optimized path surfaces. -/
theorem C1_witness :
    get_enriched_articles_optimized envC1 cfg0 caches0 "q" SupportedLanguage.Russian =
      get_enriched_articles envC1 cfg0 caches0 "q" SupportedLanguage.Russian ∧
    get_enriched_articles envErr cfg0 caches0 "q" SupportedLanguage.Russian =
      .error (.Network "down") := by
  constructor
  · exact (C1_optimized_fallback envC1 cfg0 caches0 "q" SupportedLanguage.Russian).1
      (by decide) WikiError.Timeout (by decide)
  · exact (C1_optimized_fallback envErr cfg0 caches0 "q" SupportedLanguage.Russian).2
      (.Network "down") (by decide)

/-! ### Claims C3 and C9 — the baseline zip and id uniqueness -/

theorem get_enriched_articles_of_search {env : WikipediaEnv} {cfg : WikipediaConfigM}
    {caches : WikipediaCaches} {q : String} {l : SupportedLanguage}
    {hits : List WikipediaSearchItem}
    (hs : serviceSearch env cfg caches q l = .ok hits) :
    get_enriched_articles env cfg caches q l =
      (if hits.isEmpty then .error (.NoResults q)
       else
        match (if !(hits.filterMap (fun article => article.pageid)).isEmpty then
            serviceGetBatchInfo env caches
              (hits.filterMap (fun article => article.pageid)) l
          else .ok []) with
        | .error e => .error e
        | .ok batch_info =>
          .ok (hits.enum.filterMap (fun p =>
            match p.2.pageid with
            | some pageid =>
              some ((EnrichedArticle.new p.2 (batch_info.lookup pageid) none
                (get_article_url p.2.title l)).with_relevance_index
                  (some (p.1 : Int)))
            | none => none))) := by
  unfold get_enriched_articles
  rw [hs]

/-- The successful baseline output is exactly the enumerate-and-drop zip
over the search hits, for some batch mapping. -/
theorem get_enriched_articles_ok_shape {env : WikipediaEnv} {cfg : WikipediaConfigM}
    {caches : WikipediaCaches} {q : String} {l : SupportedLanguage}
    {hits : List WikipediaSearchItem} {out : List EnrichedArticle}
    (hs : serviceSearch env cfg caches q l = .ok hits)
    (ho : get_enriched_articles env cfg caches q l = .ok out) :
    ∃ batch_info : List (Nat × ArticleBatchInfo),
      out = hits.enum.filterMap (fun p =>
        match p.2.pageid with
        | some pageid =>
          some ((EnrichedArticle.new p.2 (batch_info.lookup pageid) none
            (get_article_url p.2.title l)).with_relevance_index (some (p.1 : Int)))
        | none => none) := by
  rw [get_enriched_articles_of_search hs] at ho
  by_cases he : hits.isEmpty
  · rw [if_pos he] at ho
    cases ho
  · rw [if_neg he] at ho
    cases hbr : (if !(hits.filterMap (fun article => article.pageid)).isEmpty then
        serviceGetBatchInfo env caches
          (hits.filterMap (fun article => article.pageid)) l
      else .ok []) with
    | error e => rw [hbr] at ho; cases ho
    | ok batch_info =>
      rw [hbr] at ho
      injection ho with ho
      exact ⟨batch_info, ho.symm⟩

/-- C3: every hit without a document id is dropped, and each kept hit
appears unchanged with its 0-based position in the original search order
as its relevance index. -/
theorem C3_baseline_zip (env : WikipediaEnv) (cfg : WikipediaConfigM)
    (caches : WikipediaCaches) (q : String) (l : SupportedLanguage)
    (hits : List WikipediaSearchItem) (out : List EnrichedArticle)
    (hs : serviceSearch env cfg caches q l = .ok hits)
    (ho : get_enriched_articles env cfg caches q l = .ok out) :
    out.map (fun a => (a.basic_info, a.relevance_index)) =
      hits.enum.filterMap (fun p =>
        match p.2.pageid with
        | some _ => some (p.2, some (p.1 : Int))
        | none => none) := by
  obtain ⟨batch_info, rfl⟩ := get_enriched_articles_ok_shape hs ho
  rw [List.map_filterMap]
  congr 1
  funext p
  cases hpg : p.2.pageid <;>
    simp [hpg, EnrichedArticle.new, EnrichedArticle.with_relevance_index]

/-- Two hits with one document id; the search response carries both. -/
def envC3 : WikipediaEnv :=
  { searchResp := fun _ _ _ => .ok ⟨⟨[⟨"A", "sa", some 1, none, none, none⟩,
      ⟨"B", "sb", none, none, none, none⟩]⟩⟩
    batchResp := fun _ _ => .ok ⟨⟨[]⟩⟩
    unifiedResp := fun _ _ _ => .error .Timeout }

def hitsC3 : List WikipediaSearchItem :=
  [⟨"A", "sa", some 1, none, none, none⟩, ⟨"B", "sb", none, none, none, none⟩]

def outC3 : List EnrichedArticle :=
  [⟨⟨"A", "sa", some 1, none, none, none⟩, none, none,
    "https://ru.wikipedia.org/wiki/A", some 0⟩]

/-- C3, witnessed on a two-hit search where the second hit has no id:
only the first hit survives, at relevance index 0. -/
theorem C3_witness :
    serviceSearch envC3 cfg0 caches0 "q" SupportedLanguage.Russian = .ok hitsC3 ∧
    get_enriched_articles envC3 cfg0 caches0 "q" SupportedLanguage.Russian = .ok outC3 ∧
    outC3.map (fun a => (a.basic_info, a.relevance_index)) =
      hitsC3.enum.filterMap (fun p =>
        match p.2.pageid with
        | some _ => some (p.2, some (p.1 : Int))
        | none => none) :=
  ⟨by decide, by decide,
   C3_baseline_zip envC3 cfg0 caches0 "q" SupportedLanguage.Russian hitsC3 outC3
     (by decide) (by decide)⟩

/-! ### Claim C2 — ranking of the unified path -/

/-- The spec's ranking relation between adjacent output positions: an
indexed article never follows an unindexed one, and indexed articles are
in ascending index order. -/
def indexedPrecedes (a b : EnrichedArticle) : Prop :=
  match a.relevance_index, b.relevance_index with
  | some ia, some ib => ia ≤ ib
  | none, some _ => False
  | _, _ => True

theorem unifiedLe_iff (a b : EnrichedArticle) :
    unifiedLe a b = true ↔
      (match a.relevance_index, b.relevance_index with
       | some ia, some ib => ia ≤ ib
       | some _, none => True
       | none, some _ => False
       | none, none =>
          calculate_article_score b ≤ calculate_article_score a) := by
  unfold unifiedLe unifiedCmp
  cases a.relevance_index <;> cases b.relevance_index
  case none.none =>
    dsimp only
    split_ifs with h1 h2
    · simp [h1.le]
    · simp [not_le]
      exact h2
    · simp [le_of_not_lt h2]
  case none.some => simp
  case some.none => simp
  case some.some ia ib =>
    dsimp only
    split_ifs with h1 h2 <;> simp <;> omega

theorem unifiedLe_total (a b : EnrichedArticle) :
    unifiedLe a b = true ∨ unifiedLe b a = true := by
  rw [unifiedLe_iff, unifiedLe_iff]
  cases a.relevance_index <;> cases b.relevance_index <;> dsimp only
  · exact le_total _ _
  · exact Or.inr trivial
  · exact Or.inl trivial
  · omega

theorem unifiedLe_trans (a b c : EnrichedArticle) :
    unifiedLe a b = true → unifiedLe b c = true → unifiedLe a c = true := by
  rw [unifiedLe_iff, unifiedLe_iff, unifiedLe_iff]
  cases a.relevance_index <;> cases b.relevance_index <;> cases c.relevance_index <;>
    dsimp only <;> intro h1 h2 <;> first
      | trivial
      | exact h1.elim
      | exact h2.elim
      | exact le_trans h2 h1
      | omega

theorem unifiedLe_imp {a b : EnrichedArticle} (h : unifiedLe a b = true) :
    indexedPrecedes a b := by
  rw [unifiedLe_iff] at h
  unfold indexedPrecedes
  revert h
  cases a.relevance_index <;> cases b.relevance_index <;> dsimp only <;> intro h <;> trivial

/-- C2: in the sorted output of the unified path, every indexed article
precedes every unindexed article, whatever the heuristic scores, and the
indexed articles are in ascending index order. -/
theorem C2_unified_ranking (env : WikipediaEnv) (cfg : WikipediaConfigM)
    (q : String) (l : SupportedLanguage) (arts : List EnrichedArticle)
    (h : search_and_get_info_unified env cfg q l = .ok arts) :
    arts.Pairwise indexedPrecedes := by
  unfold search_and_get_info_unified at h
  by_cases hq : (rustTrim q.data).isEmpty
  · rw [if_pos hq] at h
    cases h
  · rw [if_neg hq] at h
    cases hu : env.unifiedResp q cfg.max_search_results l with
    | error e => rw [hu] at h; cases h
    | ok uresp =>
      rw [hu] at h
      injection h with h
      rw [← h]
      exact List.Pairwise.imp unifiedLe_imp
        (sortByLe_pairwise unifiedLe unifiedLe_total unifiedLe_trans _)

/-- A unified response listing the indexed pages out of index order. -/
def envC2 : WikipediaEnv :=
  { searchResp := fun _ _ _ => .error (.Network "down")
    batchResp := fun _ _ => .error (.Network "down")
    unifiedResp := fun _ _ _ => .ok ⟨⟨[
      ("10", ⟨10, "B", some 1, some "EB", none, none, none, none, none⟩),
      ("11", ⟨11, "A", some 0, some "EA", none, none, none, none, none⟩)]⟩⟩ }

def artsC2 : List EnrichedArticle :=
  [⟨⟨"A", "EA", some 11, none, none, none⟩,
     some ⟨none, some "EA", none, none, []⟩, none,
     "https://ru.wikipedia.org/wiki/A", some 0⟩,
   ⟨⟨"B", "EB", some 10, none, none, none⟩,
     some ⟨none, some "EB", none, none, []⟩, none,
     "https://ru.wikipedia.org/wiki/B", some 1⟩]

/-- C2, witnessed on a response whose pages arrive out of index order:
the output is sorted ascending by index and pairwise respects the ranking
relation. -/
theorem C2_witness :
    search_and_get_info_unified envC2 cfg0 "q" SupportedLanguage.Russian = .ok artsC2 ∧
    artsC2.Pairwise indexedPrecedes :=
  ⟨by decide,
   C2_unified_ranking envC2 cfg0 "q" SupportedLanguage.Russian artsC2 (by decide)⟩

/-! ### Claim C9 — document-id uniqueness in one orchestrator call -/

/-- The search endpoint returns two hits carrying the same document id —
a response shape the parser accepts (a JSON array may repeat ids). -/
def envDup : WikipediaEnv :=
  { searchResp := fun _ _ _ => .ok ⟨⟨[⟨"A", "sa", some 1, none, none, none⟩,
      ⟨"B", "sb", some 1, none, none, none⟩]⟩⟩
    batchResp := fun _ _ => .ok ⟨⟨[]⟩⟩
    unifiedResp := fun _ _ _ => .error .Timeout }

def artsDup : List EnrichedArticle :=
  [⟨⟨"A", "sa", some 1, none, none, none⟩, none, none,
    "https://ru.wikipedia.org/wiki/A", some 0⟩,
   ⟨⟨"B", "sb", some 1, none, none, none⟩, none, none,
    "https://ru.wikipedia.org/wiki/B", some 1⟩]

/-- C9: counterexample — on an accepted response whose hit list repeats a
document id, the baseline path emits two enriched articles with the same
present id. -/
theorem C9_counterexample :
    get_enriched_articles envDup cfg0 caches0 "q" SupportedLanguage.Russian =
      .ok artsDup ∧
    ¬ (artsDup.filterMap (fun a => a.basic_info.pageid)).Nodup :=
  ⟨by decide, by decide⟩

theorem enumFrom_filterMap_snd {α β : Type} (f : α → Option β) :
    ∀ (l : List α) (n : Nat),
      (l.enumFrom n).filterMap (fun p => f p.2) = l.filterMap f := by
  intro l
  induction l with
  | nil => intro n; rfl
  | cons a as ih =>
    intro n
    show ((n, a) :: as.enumFrom (n + 1)).filterMap (fun p => f p.2) = (a :: as).filterMap f
    cases hfa : f a <;> simp [List.filterMap_cons, hfa, ih]

/-- The successful unified output is the sorted assembly of the response
pages, for some fallback-snippet mapping. -/
theorem unified_ok_shape {env : WikipediaEnv} {cfg : WikipediaConfigM} {q : String}
    {l : SupportedLanguage} {uresp : UnifiedWikipediaResponse} {out : List EnrichedArticle}
    (hu : env.unifiedResp q cfg.max_search_results l = .ok uresp)
    (ho : search_and_get_info_unified env cfg q l = .ok out) :
    ∃ fallback : List (String × String),
      out = sortByLe unifiedLe (uresp.query.pages.map (fun kv =>
        mkUnifiedArticle fallback kv.2 l)) := by
  unfold search_and_get_info_unified at ho
  by_cases hq : (rustTrim q.data).isEmpty
  · rw [if_pos hq] at ho
    cases ho
  · rw [if_neg hq] at ho
    rw [hu] at ho
    injection ho with ho
    exact ⟨_, ho.symm⟩

/-- C9 (amended): within one orchestrator call, present document ids are
pairwise distinct *provided the accepted upstream response does not itself
repeat an id* — distinct present ids across the baseline hits, resp.
distinct page ids across the unified pages (the parser accepts responses
with repeats, and those repeats propagate to the output, as the
counterexample shows). -/
theorem C9_amended :
    (∀ (env : WikipediaEnv) (cfg : WikipediaConfigM) (caches : WikipediaCaches)
       (q : String) (l : SupportedLanguage) (hits : List WikipediaSearchItem)
       (out : List EnrichedArticle),
      serviceSearch env cfg caches q l = .ok hits →
      get_enriched_articles env cfg caches q l = .ok out →
      (hits.filterMap (fun h => h.pageid)).Nodup →
      (out.filterMap (fun a => a.basic_info.pageid)).Nodup) ∧
    (∀ (env : WikipediaEnv) (cfg : WikipediaConfigM) (q : String)
       (l : SupportedLanguage) (uresp : UnifiedWikipediaResponse)
       (out : List EnrichedArticle),
      env.unifiedResp q cfg.max_search_results l = .ok uresp →
      search_and_get_info_unified env cfg q l = .ok out →
      (uresp.query.pages.map (fun kv => kv.2.pageid)).Nodup →
      (out.filterMap (fun a => a.basic_info.pageid)).Nodup) := by
  constructor
  · intro env cfg caches q l hits out hs ho hnd
    obtain ⟨binfo, rfl⟩ := get_enriched_articles_ok_shape hs ho
    have hids : ((hits.enum.filterMap (fun p =>
        match p.2.pageid with
        | some pageid =>
          some ((EnrichedArticle.new p.2 (binfo.lookup pageid) none
            (get_article_url p.2.title l)).with_relevance_index (some (p.1 : Int)))
        | none => none)).filterMap (fun a => a.basic_info.pageid)) =
        hits.filterMap (fun h => h.pageid) := by
      rw [List.filterMap_filterMap]
      calc hits.enum.filterMap _ = hits.enum.filterMap (fun p => p.2.pageid) := by
            congr 1
            funext p
            cases hpg : p.2.pageid <;>
              simp [hpg, EnrichedArticle.new, EnrichedArticle.with_relevance_index]
        _ = hits.filterMap (fun h => h.pageid) :=
            enumFrom_filterMap_snd (fun h => h.pageid) hits 0
    rw [hids]
    exact hnd
  · intro env cfg q l uresp out hu ho hnd
    obtain ⟨fb, rfl⟩ := unified_ok_shape hu ho
    have hperm := (sortByLe_perm unifiedLe (uresp.query.pages.map (fun kv =>
      mkUnifiedArticle fb kv.2 l))).filterMap (fun a => a.basic_info.pageid)
    rw [hperm.nodup_iff]
    rw [List.filterMap_map]
    have hcomp : ((fun a : EnrichedArticle => a.basic_info.pageid) ∘
        (fun kv : String × UnifiedWikipediaPage => mkUnifiedArticle fb kv.2 l)) =
        fun kv : String × UnifiedWikipediaPage => some kv.2.pageid := by
      funext kv
      simp [mkUnifiedArticle, EnrichedArticle.new, EnrichedArticle.with_relevance_index]
    rw [hcomp]
    have h2 : uresp.query.pages.filterMap
        (fun kv : String × UnifiedWikipediaPage => some kv.2.pageid) =
        uresp.query.pages.map (fun kv => kv.2.pageid) :=
      List.filterMap_eq_map _ ▸ rfl
    rw [h2]
    exact hnd

/-- C9 amended, witnessed on the baseline run with distinct present ids
and on the unified run with distinct page ids: both outputs carry
duplicate-free id lists. -/
theorem C9_amended_witness :
    (outC3.filterMap (fun a => a.basic_info.pageid)).Nodup ∧
    (artsC2.filterMap (fun a => a.basic_info.pageid)).Nodup :=
  ⟨C9_amended.1 envC3 cfg0 caches0 "q" SupportedLanguage.Russian hitsC3 outC3
     (by decide) (by decide) (by decide),
   C9_amended.2 envC2 cfg0 "q" SupportedLanguage.Russian
     ⟨⟨[("10", ⟨10, "B", some 1, some "EB", none, none, none, none, none⟩),
        ("11", ⟨11, "A", some 0, some "EA", none, none, none, none, none⟩)]⟩⟩
     artsC2 (by decide) (by decide) (by decide)⟩

end WikiBot
